import Mathlib

/-!
# Signature verification middleware (`src/demo.go`)

A shallow embedding of the request-signature plugin and of the parts of the Go
standard library it calls (`crypto/sha256`, `crypto/hmac`, `encoding/base64`,
`net/http` header lookup, `fmt`), followed by theorems about `New` and
`SignatureVerifier.ServeHTTP`.

A Go `string` is an immutable sequence of bytes, and `[]byte(s)` is the same
sequence; both are embedded as `List UInt8`.
-/

namespace Plugindemo

/-- Go `string` and `[]byte`: a finite sequence of bytes. -/
abbrev GoString := List UInt8

/-- The bytes of a string literal of the source (its UTF-8 encoding). -/
def bytes (s : String) : GoString := s.data.flatMap String.utf8EncodeChar

/-! ## `crypto/sha256` (FIPS 180-4) -/

namespace sha256

/-- Size of a SHA-256 checksum in bytes (`sha256.Size`). -/
def Size : Nat := 32

/-- Block size of SHA-256 in bytes (`sha256.BlockSize`). -/
def BlockSize : Nat := 64

/-- Round constants `_K` of `sha256block.go`. -/
def _K : List Nat := [
  0x428a2f98, 0x71374491, 0xb5c0fbcf, 0xe9b5dba5, 0x3956c25b, 0x59f111f1, 0x923f82a4, 0xab1c5ed5,
  0xd807aa98, 0x12835b01, 0x243185be, 0x550c7dc3, 0x72be5d74, 0x80deb1fe, 0x9bdc06a7, 0xc19bf174,
  0xe49b69c1, 0xefbe4786, 0x0fc19dc6, 0x240ca1cc, 0x2de92c6f, 0x4a7484aa, 0x5cb0a9dc, 0x76f988da,
  0x983e5152, 0xa831c66d, 0xb00327c8, 0xbf597fc7, 0xc6e00bf3, 0xd5a79147, 0x06ca6351, 0x14292967,
  0x27b70a85, 0x2e1b2138, 0x4d2c6dfc, 0x53380d13, 0x650a7354, 0x766a0abb, 0x81c2c92e, 0x92722c85,
  0xa2bfe8a1, 0xa81a664b, 0xc24b8b70, 0xc76c51a3, 0xd192e819, 0xd6990624, 0xf40e3585, 0x106aa070,
  0x19a4c116, 0x1e376c08, 0x2748774c, 0x34b0bcb5, 0x391c0cb3, 0x4ed8aa4a, 0x5b9cca4f, 0x682e6ff3,
  0x748f82ee, 0x78a5636f, 0x84c87814, 0x8cc70208, 0x90befffa, 0xa4506ceb, 0xbef9a3f7, 0xc67178f2]

/-- Truncation of a natural number to a `uint32`. -/
def u32 (x : Nat) : Nat := x % 2 ^ 32

/-- Right rotation of a `uint32` by `n` bits: `bits.RotateLeft32(x, -n)`. -/
def rotr (x n : Nat) : Nat := u32 ((x >>> n) ||| (x <<< (32 - n)))

/-- Chaining value `h [8]uint32` of the Go `digest`. -/
structure digest where
  h0 : Nat
  h1 : Nat
  h2 : Nat
  h3 : Nat
  h4 : Nat
  h5 : Nat
  h6 : Nat
  h7 : Nat
deriving DecidableEq

/-- Initial chaining value (`init0` .. `init7`). -/
def init : digest :=
  ⟨0x6a09e667, 0xbb67ae85, 0x3c6ef372, 0xa54ff53a, 0x510e527f, 0x9b05688c, 0x1f83d9ab, 0x5be0cd19⟩

/-- Big-endian `uint32` words of a byte sequence: the first loop of `blockGeneric`. -/
def beWords : GoString → List Nat
  | b0 :: b1 :: b2 :: b3 :: rest =>
      (b0.toNat <<< 24 ||| b1.toNat <<< 16 ||| b2.toNat <<< 8 ||| b3.toNat) :: beWords rest
  | _ => []

/-- Message schedule, second loop of `blockGeneric`: `ws` holds the words computed so far,
the latest first, so that `w[i-2]`, `w[i-7]`, `w[i-15]`, `w[i-16]` are its entries 1, 6, 14, 15;
`n` further words are added. -/
def extend : Nat → List Nat → List Nat
  | 0, ws => ws
  | n + 1, ws =>
      let v1 := ws.getD 1 0
      let t1 := rotr v1 17 ^^^ rotr v1 19 ^^^ (v1 >>> 10)
      let v2 := ws.getD 14 0
      let t2 := rotr v2 7 ^^^ rotr v2 18 ^^^ (v2 >>> 3)
      extend n (u32 (t1 + ws.getD 6 0 + t2 + ws.getD 15 0) :: ws)

/-- The 64 words `w[0..63]` of one 64-byte chunk. -/
def schedule (p : GoString) : List Nat := (extend 48 (beWords p).reverse).reverse

/-- One iteration of the third loop of `blockGeneric`, on the pair `(_K[i], w[i])`. -/
def round (s : digest) (kw : Nat × Nat) : digest :=
  match s with
  | ⟨a, b, c, d, e, f, g, h⟩ =>
    let t1 := h + (rotr e 6 ^^^ rotr e 11 ^^^ rotr e 25)
                + ((e &&& f) ^^^ ((e ^^^ 0xffffffff) &&& g)) + kw.1 + kw.2
    let t2 := (rotr a 2 ^^^ rotr a 13 ^^^ rotr a 22) + ((a &&& b) ^^^ (a &&& c) ^^^ (b &&& c))
    ⟨u32 (t1 + t2), a, b, c, u32 (d + t1), e, f, g⟩

/-- Compression of one 64-byte chunk into the chaining value. -/
def block1 (dig : digest) (p : GoString) : digest :=
  let r := (_K.zip (schedule p)).foldl round dig
  ⟨u32 (dig.h0 + r.h0), u32 (dig.h1 + r.h1), u32 (dig.h2 + r.h2), u32 (dig.h3 + r.h3),
   u32 (dig.h4 + r.h4), u32 (dig.h5 + r.h5), u32 (dig.h6 + r.h6), u32 (dig.h7 + r.h7)⟩

/-- The loop `for len(p) >= chunk` of `blockGeneric`, run `n` times. -/
def block : Nat → digest → GoString → digest
  | 0, dig, _ => dig
  | n + 1, dig, p => block n (block1 dig (p.take 64)) (p.drop 64)

/-- Big-endian bytes of a `uint32`. -/
def be32 (w : Nat) : GoString :=
  [UInt8.ofNat (w >>> 24), UInt8.ofNat (w >>> 16), UInt8.ofNat (w >>> 8), UInt8.ofNat w]

/-- Big-endian bytes of a `uint64`. -/
def be64 (w : Nat) : GoString :=
  be32 (w >>> 32) ++ be32 w

/-- Padding appended by `checkSum` to a message of `len` bytes: `0x80`, zero bytes up to
56 modulo 64, and the length in bits as a big-endian `uint64`. -/
def pad (len : Nat) : GoString :=
  let zeros := if len % 64 < 56 then 55 - len % 64 else 119 - len % 64
  (0x80 : UInt8) :: (List.replicate zeros (0 : UInt8) ++ be64 ((len <<< 3) % 2 ^ 64))

/-- Computes the SHA-256 checksum of the data (`sha256.Sum256`). -/
def Sum256 (data : GoString) : GoString :=
  let p := data ++ pad data.length
  let d := block (p.length / 64) init p
  be32 d.h0 ++ be32 d.h1 ++ be32 d.h2 ++ be32 d.h3 ++
    be32 d.h4 ++ be32 d.h5 ++ be32 d.h6 ++ be32 d.h7

end sha256

/-! ## `hash.Hash` and `crypto/hmac` (RFC 2104) -/

namespace hash

/-- A hash function as `hmac.New` uses it: what `Sum(nil)` returns for the bytes written
since the last `Reset`, with the `Size` and `BlockSize` of the interface. -/
structure Hash where
  Size : Nat
  BlockSize : Nat
  sum : GoString → GoString

end hash

/-- The constructor `sha256.New`, passed to `hmac.New`. -/
def sha256.New : hash.Hash := ⟨sha256.Size, sha256.BlockSize, sha256.Sum256⟩

namespace hmac

/-- The Go `hmac` struct: the two padded keys and the bytes the inner hash has received
since the last reset, the inner padded key excluded. -/
structure HMAC where
  h : hash.Hash
  opad : GoString
  ipad : GoString
  written : GoString

/-- New returns a keyed hash (`hmac.New`): a key longer than the block size is hashed
first, the key is padded with zero bytes to the block size and combined with `0x36`
and `0x5c`; nothing has been written yet. -/
def New (h : hash.Hash) (key : GoString) : HMAC :=
  let key := if key.length > h.BlockSize then h.sum key else key
  let padded := key ++ List.replicate (h.BlockSize - key.length) (0 : UInt8)
  { h := h
    opad := padded.map fun b => b ^^^ 0x5c
    ipad := padded.map fun b => b ^^^ 0x36
    written := [] }

/-- Write adds more data to the running hash. -/
def HMAC.Write (m : HMAC) (p : GoString) : HMAC :=
  { m with written := m.written ++ p }

/-- Sum appends the current hash to `b` and returns the resulting slice: the result is
`b` followed by the tag of the data WRITTEN so far; `b` itself is not hashed. -/
def HMAC.Sum (m : HMAC) (b : GoString) : GoString :=
  b ++ m.h.sum (m.opad ++ m.h.sum (m.ipad ++ m.written))

end hmac

/-- Standard HMAC-SHA256 of a message under a key, as the specification words it: the
key, then the full message written, then the tag taken. -/
def HMAC_SHA256 (key message : GoString) : GoString :=
  ((hmac.New sha256.New key).Write message).Sum []

/-! ## `encoding/base64` -/

namespace base64

/-- The standard alphabet `encodeStd`. -/
def encodeStd : GoString :=
  bytes "ABCDEFGHIJKLMNOPQRSTUVWXYZabcdefghijklmnopqrstuvwxyz0123456789+/"

/-- The padding character `StdPadding`, the equals sign. -/
def StdPadding : UInt8 := 0x3d

/-- The table lookup `enc.encode[i]`. -/
def encode (i : Nat) : UInt8 := encodeStd.getD i 0

/-- The method `StdEncoding.EncodeToString`: three bytes become four characters; one or
two remaining bytes become two or three characters and padding. -/
def EncodeToString : GoString → GoString
  | [] => []
  | [a] =>
      let val := a.toNat <<< 16
      [encode (val >>> 18 &&& 0x3F), encode (val >>> 12 &&& 0x3F), StdPadding, StdPadding]
  | [a, b] =>
      let val := a.toNat <<< 16 ||| b.toNat <<< 8
      [encode (val >>> 18 &&& 0x3F), encode (val >>> 12 &&& 0x3F),
       encode (val >>> 6 &&& 0x3F), StdPadding]
  | a :: b :: c :: rest =>
      let val := a.toNat <<< 16 ||| b.toNat <<< 8 ||| c.toNat
      encode (val >>> 18 &&& 0x3F) :: encode (val >>> 12 &&& 0x3F) ::
        encode (val >>> 6 &&& 0x3F) :: encode (val &&& 0x3F) :: EncodeToString rest

/-- Position of a character in the standard alphabet, the inverse of `encode`. -/
def decodeMap (c : UInt8) : Nat := encodeStd.indexOf c

/-- Left inverse of `EncodeToString` on its own output, four characters at a time. It is
used to show that the encoding is injective; it is not the decoder of the library. -/
def unencode : GoString → GoString
  | c0 :: c1 :: c2 :: c3 :: rest =>
      let i0 := decodeMap c0
      let i1 := decodeMap c1
      let i2 := decodeMap c2
      let i3 := decodeMap c3
      if c2 = StdPadding then [UInt8.ofNat (i0 * 4 + i1 / 16)]
      else if c3 = StdPadding then
        [UInt8.ofNat (i0 * 4 + i1 / 16), UInt8.ofNat (i1 % 16 * 16 + i2 / 4)]
      else
        UInt8.ofNat (i0 * 4 + i1 / 16) :: UInt8.ofNat (i1 % 16 * 16 + i2 / 4) ::
          UInt8.ofNat (i2 % 4 * 64 + i3) :: unencode rest
  | _ => []

/-- The table `decodeMap` of the encoding: the value of a character of the alphabet, and
none (0xFF in the library) for every other byte. -/
def decodeByte (c : UInt8) : Option Nat :=
  if encodeStd.contains c then some (encodeStd.indexOf c) else none

/-- The 24-bit value of a quantum of four 6-bit digits. -/
def quantum (d0 d1 d2 d3 : Nat) : Nat := d0 <<< 18 ||| d1 <<< 12 ||| d2 <<< 6 ||| d3

/-- Decoding of a string without line breaks, a quantum of four characters at a time
(`decodeQuantum`): only the last quantum may end in one or two padding characters, and
nothing may follow the padding. -/
def decodeQuanta : GoString → Option GoString
  | [] => some []
  | c0 :: c1 :: c2 :: c3 :: rest =>
      match decodeByte c0, decodeByte c1 with
      | some d0, some d1 =>
          if c2 = StdPadding then
            if c3 = StdPadding ∧ rest = [] then
              some [UInt8.ofNat (quantum d0 d1 0 0 >>> 16)]
            else none
          else
            match decodeByte c2 with
            | none => none
            | some d2 =>
                if c3 = StdPadding then
                  if rest = [] then
                    some [UInt8.ofNat (quantum d0 d1 d2 0 >>> 16),
                          UInt8.ofNat (quantum d0 d1 d2 0 >>> 8)]
                  else none
                else
                  match decodeByte c3 with
                  | none => none
                  | some d3 =>
                      (decodeQuanta rest).map fun tail =>
                        UInt8.ofNat (quantum d0 d1 d2 d3 >>> 16) ::
                          UInt8.ofNat (quantum d0 d1 d2 d3 >>> 8) ::
                          UInt8.ofNat (quantum d0 d1 d2 d3) :: tail
      | _, _ => none
  | _ => none

/-- The method `StdEncoding.DecodeString`: carriage returns and line feeds are ignored,
the rest is decoded by quanta; an error of the library is `none`. -/
def DecodeString (s : GoString) : Option GoString :=
  decodeQuanta (s.filter fun c => c != 0x0a && c != 0x0d)

end base64

/-! ## `fmt` -/

namespace fmt

/-- The call `fmt.Sprint(messageParts...)`, each part taken as one string operand (the
source spreads a `[]string` where the parameter is `...any`): the operands in their
default format, and a space between two operands only when neither is a string, hence
the concatenation of the parts. -/
def Sprint (a : List GoString) : GoString := a.flatten

/-- The call `fmt.Sprintf(format, s)` for a format that is the literal `lit` followed
by one `%s` verb. -/
def Sprintf (lit : GoString) (s : GoString) : GoString := lit ++ s

end fmt

/-! ## `net/http` -/

namespace http

/-- The status code `http.StatusForbidden`. -/
def StatusForbidden : Nat := 403

/-- The bytes allowed in a header field name (`validHeaderFieldByte`): digits, letters
and the fifteen punctuation characters of an RFC 7230 token, given by their codes. -/
def validHeaderFieldByte (c : UInt8) : Bool :=
  (0x30 ≤ c && c ≤ 0x39) || (0x61 ≤ c && c ≤ 0x7a) || (0x41 ≤ c && c ≤ 0x5a) ||
    [0x21, 0x23, 0x24, 0x25, 0x26, 0x27, 0x2a, 0x2b, 0x2d, 0x2e, 0x5e, 0x5f, 0x60, 0x7c, 0x7e].contains c

/-- The case loop of `canonicalMIMEHeaderKey`: upper case for the first letter and for a
letter after a hyphen, lower case elsewhere. -/
def canonicalCase : Bool → GoString → GoString
  | _, [] => []
  | upper, c :: rest =>
      let c := if upper && 0x61 ≤ c && c ≤ 0x7a then c - 0x20
               else if !upper && 0x41 ≤ c && c ≤ 0x5a then c + 0x20
               else c
      c :: canonicalCase (c == 0x2d) rest

/-- The function `textproto.CanonicalMIMEHeaderKey`: a key that holds a byte that is not
allowed in a field name is returned unchanged, any other key in canonical case. -/
def CanonicalMIMEHeaderKey (s : GoString) : GoString :=
  if s.all validHeaderFieldByte then canonicalCase true s else s

/-- The type `http.Header`, a `map[string][]string`, as an association list. -/
abbrev Header := List (GoString × List GoString)

/-- Get gets the first value associated with the given key, or the empty string when
there is none; the key is canonicalised before the lookup (`Header.Get`). -/
def Header.Get (h : Header) (key : GoString) : GoString :=
  match h.lookup (CanonicalMIMEHeaderKey key) with
  | some (v :: _) => v
  | _ => []

/-- The fields of `http.Request` that a handler can read. -/
structure Request where
  Method : GoString
  URL : GoString
  Header : Header
  Body : GoString
deriving DecidableEq

/-- A handler of the pipeline, known by an identifier. -/
structure Handler where
  id : Nat
deriving DecidableEq

end http

/-! ## The plugin -/

/-- Config the plugin configuration. -/
structure Config where
  Headers : List GoString
  SecretKey : GoString
deriving DecidableEq

/-- CreateConfig creates the default plugin configuration. -/
def CreateConfig : Config :=
  { Headers := [bytes "X-Date", bytes "Authorization", bytes "APP-ID"]
    SecretKey := bytes "" }

/-- SignatureVerifier a plugin to verify request signatures. -/
structure SignatureVerifier where
  next : http.Handler
  headers : List GoString
  secretKey : GoString
deriving DecidableEq

/-- New creates a new SignatureVerifier plugin. The pair `(http.Handler, error)` is an
`Except`; `config` is the configuration the pointer refers to (it is dereferenced
unconditionally); the context and the name are not used by the body. -/
def New (_ctx : Unit) (next : http.Handler) (config : Config) (_name : GoString) :
    Except GoString SignatureVerifier :=
  if config.Headers.length = 0 ∨ config.SecretKey = bytes "" then
    .error (bytes "headers and secretKey must be provided")
  else
    .ok { next := next, headers := config.Headers, secretKey := config.SecretKey }

/-- What `ServeHTTP` does to its environment: a call of `http.Error` on the response
writer, or a call of `ServeHTTP` on a handler with a request. -/
inductive Action where
  | Error (error : GoString) (code : Nat)
  | ServeHTTP (next : http.Handler) (req : http.Request)
deriving DecidableEq

/-- The loop of `ServeHTTP` (lines 47 to 55): `messageParts` grows by the value of each
header in turn; the loop stops at the first header whose value is the empty string and
yields that header. -/
def extractHeaders (req : http.Request) : List GoString → List GoString →
    Except GoString (List GoString)
  | [], messageParts => .ok messageParts
  | header :: rest, messageParts =>
      let value := req.Header.Get header
      if value = bytes "" then .error header
      else extractHeaders req rest (messageParts ++ [value])

/-- The expected signature of `ServeHTTP` (lines 58 to 61). -/
def expectedSignature (secretKey : GoString) (messageParts : List GoString) : GoString :=
  let message := fmt.Sprint messageParts
  base64.EncodeToString ((hmac.New sha256.New secretKey).Sum message)

/-- The state after a call of `ServeHTTP`: the receiver, and the calls made, in order. -/
structure Served where
  sv : SignatureVerifier
  calls : List Action
deriving DecidableEq

/-- The method `(*SignatureVerifier).ServeHTTP`. -/
def ServeHTTP (sv : SignatureVerifier) (req : http.Request) : Served :=
  match extractHeaders req sv.headers [] with
  | .error header =>
      ⟨sv, [Action.Error (fmt.Sprintf (bytes "Missing required header: ") header)
              http.StatusForbidden]⟩
  | .ok messageParts =>
      let expected := expectedSignature sv.secretKey messageParts
      let signature := req.Header.Get (bytes "X-Signature")
      if signature ≠ expected then
        ⟨sv, [Action.Error (bytes "Invalid signature") http.StatusForbidden]⟩
      else
        ⟨sv, [Action.ServeHTTP sv.next req]⟩

/-! ## Notions of the specification -/

/-- A header is missing from a request when its lookup yields the empty string: there is
no entry under its canonical key, or the entry has no value, or its first value is empty. -/
def missing (req : http.Request) (header : GoString) : Prop :=
  req.Header.Get header = bytes ""

instance (req : http.Request) (header : GoString) : Decidable (missing req header) :=
  inferInstanceAs (Decidable (req.Header.Get header = bytes ""))

/-- The assembled message of the specification: the values of the configured headers,
one per entry of the list and in its order, with nothing between them. -/
def assembledMessage (req : http.Request) : List GoString → GoString
  | [] => []
  | header :: rest => req.Header.Get header ++ assembledMessage req rest

/-- Decision of the specification: forward, or reject with a status and a message. -/
inductive Decision where
  | Forward
  | Reject (status : Nat) (message : GoString)
deriving DecidableEq

/-- The decision a call stands for: a call of the next handler forwards, a call of
`http.Error` rejects with its code and message. -/
def Action.decision : Action → Decision
  | .Error error code => .Reject code error
  | .ServeHTTP _ _ => .Forward

/-- Evaluate of the specification: the decisions of the calls `ServeHTTP` makes. -/
def Evaluate (sv : SignatureVerifier) (req : http.Request) : List Decision :=
  (ServeHTTP sv req).calls.map Action.decision

/-- The verifier forwards the request: its only call is the next handler, with the request
it received. -/
def forwards (sv : SignatureVerifier) (req : http.Request) : Prop :=
  (ServeHTTP sv req).calls = [Action.ServeHTTP sv.next req]

instance (sv : SignatureVerifier) (req : http.Request) : Decidable (forwards sv req) :=
  inferInstanceAs (Decidable ((ServeHTTP sv req).calls = [Action.ServeHTTP sv.next req]))

/-- The verifier rejects the request with a message: its only call is `http.Error` with
the message and status 403. -/
def rejects (sv : SignatureVerifier) (req : http.Request) (message : GoString) : Prop :=
  (ServeHTTP sv req).calls = [Action.Error message 403]

instance (sv : SignatureVerifier) (req : http.Request) (message : GoString) :
    Decidable (rejects sv req message) :=
  inferInstanceAs (Decidable ((ServeHTTP sv req).calls = [Action.Error message 403]))

/-- Serving a sequence of requests, one call of `ServeHTTP` after the other on the same
receiver: the receiver after the last call, and the calls made for each request. -/
def serveAll : SignatureVerifier → List http.Request → SignatureVerifier × List (List Action)
  | sv, [] => (sv, [])
  | sv, req :: rest =>
      let served := ServeHTTP sv req
      let after := serveAll served.sv rest
      (after.1, served.calls :: after.2)

/-- A signature for `message` computed without the secret from a signature `accepted` for
another message: the decoding of `accepted` loses all but its last 32 bytes, which are
put after the bytes of `message` and encoded. When `accepted` does not decode, the
result is the empty string. -/
def forge (accepted message : GoString) : GoString :=
  match base64.DecodeString accepted with
  | some decoded => base64.EncodeToString (message ++ decoded.drop (decoded.length - 32))
  | none => []

/-! ## Concrete data of the scenarios of the specification -/

/-- A `GET /` request with the given headers and no body. -/
def requestOf (header : http.Header) : http.Request :=
  { Method := bytes "GET", URL := bytes "/", Header := header, Body := [] }

/-- A request with the three default headers and a signature, under the canonical keys
the server stores them with. -/
def scenarioRequest (appId signature : GoString) : http.Request :=
  requestOf [(bytes "X-Date", [bytes "2024-01-01"]),
             (bytes "Authorization", [bytes "Bearer t"]),
             (bytes "App-Id", [appId]),
             (bytes "X-Signature", [signature])]

/-- The request of the scenario without its `APP-ID` header. -/
def scenarioRequestNoAppId (signature : GoString) : http.Request :=
  requestOf [(bytes "X-Date", [bytes "2024-01-01"]),
             (bytes "Authorization", [bytes "Bearer t"]),
             (bytes "X-Signature", [signature])]

/-- A request with the same configured headers and signature as the scenario, and another
method, URL, body and further headers. -/
def scenarioRequestOther (appId signature : GoString) : http.Request :=
  { Method := bytes "POST"
    URL := bytes "/other?x=1"
    Header := [(bytes "User-Agent", [bytes "curl"]),
               (bytes "X-Signature", [signature, bytes "second"]),
               (bytes "App-Id", [appId]),
               (bytes "Authorization", [bytes "Bearer t"]),
               (bytes "X-Date", [bytes "2024-01-01"])]
    Body := bytes "payload" }

/-- The verifier of the scenarios: the default headers and the secret `s3cr3t`. -/
def scenarioVerifier : SignatureVerifier :=
  { next := ⟨1⟩
    headers := [bytes "X-Date", bytes "Authorization", bytes "APP-ID"]
    secretKey := bytes "s3cr3t" }

/-- The signature the code accepts in the scenario with `APP-ID: 42`. -/
def scenarioSignature : GoString :=
  bytes "MjAyNC0wMS0wMUJlYXJlciB0NDI8gcyUluHCUlD2zLhfaXwbtiPjSA1lOK2MtqZkgUJ3fQ=="

/-- Base64 of the standard HMAC-SHA256 of `2024-01-01Bearer t42` under `s3cr3t`. -/
def scenarioStandardSignature : GoString :=
  bytes "wyFolE99YYpJNpS0FuYkK+YI1kNblJDHgQWNlXEkkyo="

/-- A verifier over the two headers `A` and `B`. -/
def abVerifier : SignatureVerifier :=
  { next := ⟨1⟩, headers := [bytes "A", bytes "B"], secretKey := bytes "k" }

/-- A request with values for the headers `A` and `B` and a signature. -/
def abRequest (a b signature : GoString) : http.Request :=
  requestOf [(bytes "A", [a]), (bytes "B", [b]), (bytes "X-Signature", [signature])]

/-- A verifier that lists the header `A` twice. -/
def aaVerifier : SignatureVerifier :=
  { next := ⟨1⟩, headers := [bytes "A", bytes "A"], secretKey := bytes "k" }

/-- The signature computed from `scenarioSignature`, without the secret, for the scenario
with `APP-ID: 43`. -/
def scenarioForgedSignature : GoString :=
  bytes "MjAyNC0wMS0wMUJlYXJlciB0NDM8gcyUluHCUlD2zLhfaXwbtiPjSA1lOK2MtqZkgUJ3fQ=="

/-- The request of the scenario without an `X-Signature` header. -/
def scenarioRequestNoSignature : http.Request :=
  requestOf [(bytes "X-Date", [bytes "2024-01-01"]),
             (bytes "Authorization", [bytes "Bearer t"]),
             (bytes "App-Id", [bytes "42"])]

/-- The signature that `abVerifier` accepts for values of `A` and `B` that concatenate
to `abc`. -/
def abcSignature : GoString :=
  bytes "YWJji7mQxAp9YcuXWXqUISUCW+UKyL63RDbjc1uYiTp/ZiA="

/-! ## Test vectors of the library model -/

set_option maxRecDepth 100000 in
/-- SHA-256 of `abc`, the one-block vector of FIPS 180-4. -/
theorem sha256.Sum256_abc :
    sha256.Sum256 (bytes "abc") =
      [0xba, 0x78, 0x16, 0xbf, 0x8f, 0x01, 0xcf, 0xea, 0x41, 0x41, 0x40, 0xde, 0x5d, 0xae, 0x22,
       0x23, 0xb0, 0x03, 0x61, 0xa3, 0x96, 0x17, 0x7a, 0x9c, 0xb4, 0x10, 0xff, 0x61, 0xf2, 0x00,
       0x15, 0xad] := by
  decide

set_option maxRecDepth 100000 in
/-- HMAC-SHA256 of test case 2 of RFC 4231. -/
theorem HMAC_SHA256_rfc4231 :
    HMAC_SHA256 (bytes "Jefe") (bytes "what do ya want for nothing?") =
      [0x5b, 0xdc, 0xc1, 0x46, 0xbf, 0x60, 0x75, 0x4e, 0x6a, 0x04, 0x24, 0x26, 0x08, 0x95, 0x75,
       0xc7, 0x5a, 0x00, 0x3f, 0x08, 0x9d, 0x27, 0x39, 0x83, 0x9d, 0xec, 0x58, 0xb9, 0x64, 0xec,
       0x38, 0x43] := by
  decide

set_option maxRecDepth 100000 in
/-- Base64 of the test vectors of RFC 4648. -/
theorem base64.EncodeToString_rfc4648 :
    base64.EncodeToString (bytes "f") = bytes "Zg==" ∧
    base64.EncodeToString (bytes "fo") = bytes "Zm8=" ∧
    base64.EncodeToString (bytes "foo") = bytes "Zm9v" ∧
    base64.EncodeToString (bytes "foobar") = bytes "Zm9vYmFy" := by
  decide

set_option maxRecDepth 100000 in
/-- Decoding of well-formed and of malformed input: line breaks are skipped, padding is
allowed at the end only, and a character outside the alphabet is an error. -/
theorem base64.DecodeString_examples :
    base64.DecodeString (bytes "Zm9vYmFy") = some (bytes "foobar") ∧
    base64.DecodeString (bytes "Zm9v\nYg==\r\n") = some (bytes "foob") ∧
    base64.DecodeString (bytes "Zm9vYmE=") = some (bytes "fooba") ∧
    base64.DecodeString (bytes "Zm9vYg=") = none ∧
    base64.DecodeString (bytes "Zg==Zm9v") = none ∧
    base64.DecodeString (bytes "Zm9v*mFy") = none ∧
    base64.DecodeString (bytes "Zm9vY") = none := by
  decide

set_option maxRecDepth 100000 in
/-- Canonical form of header names, with the examples of the library documentation. -/
theorem http.CanonicalMIMEHeaderKey_examples :
    http.CanonicalMIMEHeaderKey (bytes "accept-encoding") = bytes "Accept-Encoding" ∧
    http.CanonicalMIMEHeaderKey (bytes "APP-ID") = bytes "App-Id" ∧
    http.CanonicalMIMEHeaderKey (bytes "a b") = bytes "a b" := by
  decide

/-! ## Lemmas on the library model -/

@[simp] theorem bytes_empty : bytes "" = [] := rfl

theorem sha256.Sum256_length (data : GoString) : (sha256.Sum256 data).length = 32 := by
  simp [sha256.Sum256, sha256.be32]

theorem sha256.New_sum : sha256.New.sum = sha256.Sum256 := rfl

theorem sha256.New_sum_length (data : GoString) : (sha256.New.sum data).length = 32 := by
  rw [sha256.New_sum]
  exact sha256.Sum256_length data

/-- For any keyed hash, `Sum` yields its argument followed by the tag of what was written:
the argument is not part of what is hashed. -/
theorem hmac.Sum_eq (m : hmac.HMAC) (b : GoString) : m.Sum b = b ++ m.Sum [] := by
  simp [hmac.HMAC.Sum]

theorem hmac.Sum_nil_length (m : hmac.HMAC) (n : Nat)
    (hlen : ∀ d, (m.h.sum d).length = n) : (m.Sum []).length = n := by
  simp [hmac.HMAC.Sum, hlen]

theorem hmac.Write_h (m : hmac.HMAC) (p : GoString) : (m.Write p).h = m.h := rfl

theorem hmac.New_h (h : hash.Hash) (key : GoString) : (hmac.New h key).h = h := rfl

theorem hmac.Write_nil (h : hash.Hash) (key : GoString) :
    (hmac.New h key).Write [] = hmac.New h key := by
  simp [hmac.HMAC.Write, hmac.New]

theorem HMAC_SHA256_length (key message : GoString) :
    (HMAC_SHA256 key message).length = 32 := by
  unfold HMAC_SHA256
  apply hmac.Sum_nil_length
  intro d
  rw [hmac.Write_h, hmac.New_h]
  exact sha256.New_sum_length d

/-- What the keyed hash of `ServeHTTP` returns: nothing is written to it, so `Sum`
yields its argument followed by the tag of the empty message. -/
theorem hmac_Sum_unwritten (key b : GoString) :
    (hmac.New sha256.New key).Sum b = b ++ HMAC_SHA256 key [] := by
  unfold HMAC_SHA256
  rw [hmac.Write_nil, ← hmac.Sum_eq]

namespace base64

theorem decodeMap_encode : ∀ i, i < 64 → decodeMap (encode i) = i := by decide

theorem encode_ne_padding : ∀ i, i < 64 → encode i ≠ StdPadding := by decide

theorem ofNat_toNat (x : UInt8) : UInt8.ofNat x.toNat = x := by
  cases x with
  | mk v =>
    apply UInt8.ext
    simp [UInt8.ofNat, UInt8.toNat, Fin.ofNat]

theorem and_63 (x : Nat) : x &&& 0x3F = x % 64 := Nat.and_pow_two_sub_one_eq_mod x 6

theorem val_eq (a b c : Nat) (hb : b < 256) (hc : c < 256) :
    a <<< 16 ||| b <<< 8 ||| c = a * 65536 + b * 256 + c := by
  have hlt : b * 2 ^ 8 < 2 ^ 16 := by omega
  have hc8 : c < 2 ^ 8 := by omega
  have e : 2 ^ 16 * a + b * 2 ^ 8 = 2 ^ 8 * (a * 256 + b) := by omega
  rw [Nat.shiftLeft_eq, Nat.shiftLeft_eq, Nat.mul_comm a (2 ^ 16),
    ← Nat.mul_add_lt_is_or hlt a, e, ← Nat.mul_add_lt_is_or hc8 (a * 256 + b)]
  omega

theorem val2_eq (a b : Nat) (hb : b < 256) :
    a <<< 16 ||| b <<< 8 = a * 65536 + b * 256 := by
  have h := val_eq a b 0 hb (by omega)
  simpa using h

theorem decodeMap_index (v k : Nat) :
    decodeMap (encode (v >>> k &&& 0x3F)) = v / 2 ^ k % 64 := by
  rw [and_63, Nat.shiftRight_eq_div_pow]
  exact decodeMap_encode _ (Nat.mod_lt _ (by decide))

theorem decodeMap_index0 (v : Nat) : decodeMap (encode (v &&& 0x3F)) = v % 64 := by
  rw [and_63]
  exact decodeMap_encode _ (Nat.mod_lt _ (by decide))

theorem index_ne_padding (v k : Nat) : encode (v >>> k &&& 0x3F) ≠ StdPadding := by
  rw [and_63]
  exact encode_ne_padding _ (Nat.mod_lt _ (by decide))

theorem index0_ne_padding (v : Nat) : encode (v &&& 0x3F) ≠ StdPadding := by
  rw [and_63]
  exact encode_ne_padding _ (Nat.mod_lt _ (by decide))

theorem unencode_EncodeToString (s : GoString) : unencode (EncodeToString s) = s := by
  induction s using EncodeToString.induct with
  | case1 => rfl
  | case2 a =>
    have ha := a.toNat_lt
    have e : a.toNat <<< 16 / 2 ^ 18 % 64 * 4 + a.toNat <<< 16 / 2 ^ 12 % 64 / 16
        = a.toNat := by
      rw [Nat.shiftLeft_eq]; omega
    simp only [EncodeToString, unencode, if_true, decodeMap_index, e, ofNat_toNat]
  | case3 a b =>
    have ha := a.toNat_lt
    have hb := b.toNat_lt
    have hv := val2_eq a.toNat b.toNat (by omega)
    have e0 : (a.toNat * 65536 + b.toNat * 256) / 2 ^ 18 % 64 * 4
        + (a.toNat * 65536 + b.toNat * 256) / 2 ^ 12 % 64 / 16 = a.toNat := by omega
    have e1 : (a.toNat * 65536 + b.toNat * 256) / 2 ^ 12 % 64 % 16 * 16
        + (a.toNat * 65536 + b.toNat * 256) / 2 ^ 6 % 64 / 4 = b.toNat := by omega
    simp only [EncodeToString, unencode, if_true, decodeMap_index, index_ne_padding, if_false,
      hv, e0, e1, ofNat_toNat]
  | case4 a b c rest ih =>
    have ha := a.toNat_lt
    have hb := b.toNat_lt
    have hc := c.toNat_lt
    have hv := val_eq a.toNat b.toNat c.toNat (by omega) (by omega)
    have e0 : (a.toNat * 65536 + b.toNat * 256 + c.toNat) / 2 ^ 18 % 64 * 4
        + (a.toNat * 65536 + b.toNat * 256 + c.toNat) / 2 ^ 12 % 64 / 16 = a.toNat := by omega
    have e1 : (a.toNat * 65536 + b.toNat * 256 + c.toNat) / 2 ^ 12 % 64 % 16 * 16
        + (a.toNat * 65536 + b.toNat * 256 + c.toNat) / 2 ^ 6 % 64 / 4 = b.toNat := by omega
    have e2 : (a.toNat * 65536 + b.toNat * 256 + c.toNat) / 2 ^ 6 % 64 % 4 * 64
        + (a.toNat * 65536 + b.toNat * 256 + c.toNat) % 64 = c.toNat := by omega
    simp only [EncodeToString, unencode, decodeMap_index, decodeMap_index0, index_ne_padding,
      index0_ne_padding, if_false, hv, Nat.shiftRight_eq_div_pow, e0, e1, e2, ofNat_toNat, ih]

/-- The standard encoding is injective. -/
theorem EncodeToString_injective {s t : GoString}
    (h : EncodeToString s = EncodeToString t) : s = t := by
  have key := congrArg unencode h
  rwa [unencode_EncodeToString, unencode_EncodeToString] at key

theorem decodeByte_encode : ∀ i, i < 64 → decodeByte (encode i) = some i := by decide

theorem encode_ne_newline : ∀ i, i < 64 → (encode i != 0x0a && encode i != 0x0d) = true := by
  decide

theorem quantum_eq (d0 d1 d2 d3 : Nat) (h1 : d1 < 64) (h2 : d2 < 64) (h3 : d3 < 64) :
    quantum d0 d1 d2 d3 = d0 * 262144 + d1 * 4096 + d2 * 64 + d3 := by
  have l1 : d1 * 2 ^ 12 < 2 ^ 18 := by omega
  have l2 : d2 * 2 ^ 6 < 2 ^ 12 := by omega
  have l3 : d3 < 2 ^ 6 := by omega
  have e1 : 2 ^ 18 * d0 + d1 * 2 ^ 12 = 2 ^ 12 * (d0 * 64 + d1) := by omega
  have e2 : 2 ^ 12 * (d0 * 64 + d1) + d2 * 2 ^ 6 = 2 ^ 6 * (d0 * 4096 + d1 * 64 + d2) := by
    omega
  unfold quantum
  rw [Nat.shiftLeft_eq, Nat.shiftLeft_eq, Nat.shiftLeft_eq, Nat.mul_comm d0 (2 ^ 18),
    ← Nat.mul_add_lt_is_or l1 d0, e1, ← Nat.mul_add_lt_is_or l2 (d0 * 64 + d1), e2,
    ← Nat.mul_add_lt_is_or l3 (d0 * 4096 + d1 * 64 + d2)]
  omega

theorem ofNat_eq_of_mod (n : Nat) (b : UInt8) (h : n % 256 = b.toNat) : UInt8.ofNat n = b := by
  rw [← ofNat_toNat b, ← h]
  apply UInt8.ext
  simp [UInt8.ofNat, UInt8.toNat, Fin.ofNat]


theorem decodeByte_index (v k : Nat) :
    decodeByte (encode (v >>> k &&& 0x3F)) = some (v / 2 ^ k % 64) := by
  rw [and_63, Nat.shiftRight_eq_div_pow]
  exact decodeByte_encode _ (Nat.mod_lt _ (by decide))

theorem decodeByte_index0 (v : Nat) : decodeByte (encode (v &&& 0x3F)) = some (v % 64) := by
  rw [and_63]
  exact decodeByte_encode _ (Nat.mod_lt _ (by decide))

theorem decodeQuanta_EncodeToString (s : GoString) :
    decodeQuanta (EncodeToString s) = some s := by
  induction s using EncodeToString.induct with
  | case1 => rfl
  | case2 a =>
    have ha := a.toNat_lt
    have hq := quantum_eq (a.toNat <<< 16 / 2 ^ 18 % 64) (a.toNat <<< 16 / 2 ^ 12 % 64) 0 0
      (Nat.mod_lt _ (by decide)) (by decide) (by decide)
    have e : (a.toNat <<< 16 / 2 ^ 18 % 64 * 262144 + a.toNat <<< 16 / 2 ^ 12 % 64 * 4096
        + 0 * 64 + 0) / 2 ^ 16 % 256 = a.toNat := by
      rw [Nat.shiftLeft_eq]; omega
    simp only [EncodeToString, decodeQuanta, Nat.shiftRight_eq_div_pow, decodeByte_index0,
      if_true, and_self, hq, ofNat_eq_of_mod _ a e]
  | case3 a b =>
    have ha := a.toNat_lt
    have hb := b.toNat_lt
    have hv := val2_eq a.toNat b.toNat (by omega)
    have hq := quantum_eq ((a.toNat * 65536 + b.toNat * 256) / 2 ^ 18 % 64)
      ((a.toNat * 65536 + b.toNat * 256) / 2 ^ 12 % 64)
      ((a.toNat * 65536 + b.toNat * 256) / 2 ^ 6 % 64) 0
      (Nat.mod_lt _ (by decide)) (Nat.mod_lt _ (by decide)) (by decide)
    have e0 : ((a.toNat * 65536 + b.toNat * 256) / 2 ^ 18 % 64 * 262144
        + (a.toNat * 65536 + b.toNat * 256) / 2 ^ 12 % 64 * 4096
        + (a.toNat * 65536 + b.toNat * 256) / 2 ^ 6 % 64 * 64 + 0) / 2 ^ 16 % 256
        = a.toNat := by omega
    have e1 : ((a.toNat * 65536 + b.toNat * 256) / 2 ^ 18 % 64 * 262144
        + (a.toNat * 65536 + b.toNat * 256) / 2 ^ 12 % 64 * 4096
        + (a.toNat * 65536 + b.toNat * 256) / 2 ^ 6 % 64 * 64 + 0) / 2 ^ 8 % 256
        = b.toNat := by omega
    have hp : encode ((a.toNat * 65536 + b.toNat * 256) / 2 ^ 6 &&& 63) ≠ StdPadding :=
      index0_ne_padding _
    simp only [EncodeToString, decodeQuanta, hv, Nat.shiftRight_eq_div_pow, decodeByte_index0,
      if_true, if_false, hp, hq, ofNat_eq_of_mod _ a e0, ofNat_eq_of_mod _ b e1]
  | case4 a b c rest ih =>
    have ha := a.toNat_lt
    have hb := b.toNat_lt
    have hc := c.toNat_lt
    have hv := val_eq a.toNat b.toNat c.toNat (by omega) (by omega)
    have hq := quantum_eq ((a.toNat * 65536 + b.toNat * 256 + c.toNat) / 2 ^ 18 % 64)
      ((a.toNat * 65536 + b.toNat * 256 + c.toNat) / 2 ^ 12 % 64)
      ((a.toNat * 65536 + b.toNat * 256 + c.toNat) / 2 ^ 6 % 64)
      ((a.toNat * 65536 + b.toNat * 256 + c.toNat) % 64)
      (Nat.mod_lt _ (by decide)) (Nat.mod_lt _ (by decide)) (Nat.mod_lt _ (by decide))
    have e0 : ((a.toNat * 65536 + b.toNat * 256 + c.toNat) / 2 ^ 18 % 64 * 262144
        + (a.toNat * 65536 + b.toNat * 256 + c.toNat) / 2 ^ 12 % 64 * 4096
        + (a.toNat * 65536 + b.toNat * 256 + c.toNat) / 2 ^ 6 % 64 * 64
        + (a.toNat * 65536 + b.toNat * 256 + c.toNat) % 64) / 2 ^ 16 % 256 = a.toNat := by
      omega
    have e1 : ((a.toNat * 65536 + b.toNat * 256 + c.toNat) / 2 ^ 18 % 64 * 262144
        + (a.toNat * 65536 + b.toNat * 256 + c.toNat) / 2 ^ 12 % 64 * 4096
        + (a.toNat * 65536 + b.toNat * 256 + c.toNat) / 2 ^ 6 % 64 * 64
        + (a.toNat * 65536 + b.toNat * 256 + c.toNat) % 64) / 2 ^ 8 % 256 = b.toNat := by
      omega
    have e2 : ((a.toNat * 65536 + b.toNat * 256 + c.toNat) / 2 ^ 18 % 64 * 262144
        + (a.toNat * 65536 + b.toNat * 256 + c.toNat) / 2 ^ 12 % 64 * 4096
        + (a.toNat * 65536 + b.toNat * 256 + c.toNat) / 2 ^ 6 % 64 * 64
        + (a.toNat * 65536 + b.toNat * 256 + c.toNat) % 64) % 256 = c.toNat := by
      omega
    have hp2 : encode ((a.toNat * 65536 + b.toNat * 256 + c.toNat) / 2 ^ 6 &&& 63)
        ≠ StdPadding := index0_ne_padding _
    have hp3 : encode ((a.toNat * 65536 + b.toNat * 256 + c.toNat) &&& 63)
        ≠ StdPadding := index0_ne_padding _
    simp only [EncodeToString, decodeQuanta, hv, Nat.shiftRight_eq_div_pow, decodeByte_index0,
      if_false, hp2, hp3, hq, ofNat_eq_of_mod _ a e0, ofNat_eq_of_mod _ b e1,
      ofNat_eq_of_mod _ c e2, ih, Option.map_some']

theorem filter_EncodeToString (s : GoString) :
    (EncodeToString s).filter (fun c => c != 0x0a && c != 0x0d) = EncodeToString s := by
  rw [List.filter_eq_self]
  induction s using EncodeToString.induct with
  | case1 => simp [EncodeToString]
  | case2 a =>
    intro c hc
    simp only [EncodeToString, List.mem_cons, List.mem_singleton, List.not_mem_nil,
      or_false, and_63] at hc
    rcases hc with rfl | rfl | rfl | rfl
    · exact encode_ne_newline _ (Nat.mod_lt _ (by decide))
    · exact encode_ne_newline _ (Nat.mod_lt _ (by decide))
    · decide
    · decide
  | case3 a b =>
    intro c hc
    simp only [EncodeToString, List.mem_cons, List.mem_singleton, List.not_mem_nil,
      or_false, and_63] at hc
    rcases hc with rfl | rfl | rfl | rfl
    · exact encode_ne_newline _ (Nat.mod_lt _ (by decide))
    · exact encode_ne_newline _ (Nat.mod_lt _ (by decide))
    · exact encode_ne_newline _ (Nat.mod_lt _ (by decide))
    · decide
  | case4 a b c rest ih =>
    intro x hx
    simp only [EncodeToString, List.mem_cons, and_63] at hx
    rcases hx with rfl | rfl | rfl | rfl | hx
    · exact encode_ne_newline _ (Nat.mod_lt _ (by decide))
    · exact encode_ne_newline _ (Nat.mod_lt _ (by decide))
    · exact encode_ne_newline _ (Nat.mod_lt _ (by decide))
    · exact encode_ne_newline _ (Nat.mod_lt _ (by decide))
    · exact ih x hx

/-- Decoding inverts encoding. -/
theorem DecodeString_EncodeToString (s : GoString) :
    DecodeString (EncodeToString s) = some s := by
  unfold DecodeString
  rw [filter_EncodeToString, decodeQuanta_EncodeToString]

/-- An encoding has four characters for every three bytes, rounded up. -/
theorem length_EncodeToString (s : GoString) :
    (EncodeToString s).length = 4 * ((s.length + 2) / 3) := by
  induction s using EncodeToString.induct with
  | case1 => rfl
  | case2 a => simp [EncodeToString]
  | case3 a b => simp [EncodeToString]
  | case4 a b c rest ih =>
    simp only [EncodeToString, List.length_cons, ih]
    omega

end base64

/-! ## Lemmas on the plugin -/

theorem Sprint_eq_assembledMessage (req : http.Request) (headers : List GoString) :
    fmt.Sprint (headers.map req.Header.Get) = assembledMessage req headers := by
  induction headers with
  | nil => rfl
  | cons header rest ih =>
    simp only [fmt.Sprint] at ih
    simp [fmt.Sprint, assembledMessage, ih]

/-- The loop ends with every value, in order, when no header is missing. -/
theorem extractHeaders_ok (req : http.Request) (headers acc : List GoString)
    (h : ∀ x ∈ headers, ¬ missing req x) :
    extractHeaders req headers acc = .ok (acc ++ headers.map req.Header.Get) := by
  induction headers generalizing acc with
  | nil => simp [extractHeaders]
  | cons x xs ih =>
    have hx : ¬ req.Header.Get x = bytes "" := h x (List.mem_cons_self _ _)
    have hxs : ∀ y ∈ xs, ¬ missing req y := fun y hy => h y (List.mem_cons_of_mem _ hy)
    simp only [extractHeaders, hx, if_false, ih _ hxs]
    simp

/-- The loop stops at the first missing header. -/
theorem extractHeaders_error (req : http.Request) (pre : List GoString) (header : GoString)
    (post acc : List GoString) (hpre : ∀ x ∈ pre, ¬ missing req x)
    (hmiss : missing req header) :
    extractHeaders req (pre ++ header :: post) acc = .error header := by
  induction pre generalizing acc with
  | nil =>
    have hm : req.Header.Get header = bytes "" := hmiss
    simp [extractHeaders, hm]
  | cons x xs ih =>
    have hx : ¬ req.Header.Get x = bytes "" := hpre x (List.mem_cons_self _ _)
    have hxs : ∀ y ∈ xs, ¬ missing req y := fun y hy => hpre y (List.mem_cons_of_mem _ hy)
    simp only [List.cons_append, extractHeaders, hx, if_false]
    exact ih _ hxs

/-- A list with a missing header splits at its first missing header. -/
theorem exists_first_missing (req : http.Request) (headers : List GoString)
    (h : ∃ x ∈ headers, missing req x) :
    ∃ pre header post, headers = pre ++ header :: post ∧
      (∀ x ∈ pre, ¬ missing req x) ∧ missing req header := by
  induction headers with
  | nil => simp at h
  | cons x xs ih =>
    by_cases hx : missing req x
    · exact ⟨[], x, xs, rfl, by simp, hx⟩
    · have h2 : ∃ y ∈ xs, missing req y := by
        obtain ⟨y, hy, hmy⟩ := h
        rcases List.mem_cons.mp hy with e | hy2
        · exact absurd (e ▸ hmy) hx
        · exact ⟨y, hy2, hmy⟩
      obtain ⟨pre, header, post, e, hpre, hm⟩ := ih h2
      refine ⟨x :: pre, header, post, by simp [e], ?_, hm⟩
      intro y hy
      rcases List.mem_cons.mp hy with e2 | hy2
      · exact e2 ▸ hx
      · exact hpre y hy2

/-- The expected signature of the code: the encoding of the message followed by the tag
of the empty message. -/
theorem expectedSignature_eq (secretKey : GoString) (messageParts : List GoString) :
    expectedSignature secretKey messageParts =
      base64.EncodeToString (fmt.Sprint messageParts ++ HMAC_SHA256 secretKey []) := by
  simp [expectedSignature, hmac_Sum_unwritten]

/-- The outcome of `ServeHTTP` when a header is missing. -/
theorem ServeHTTP_missing (sv : SignatureVerifier) (req : http.Request)
    (pre : List GoString) (header : GoString) (post : List GoString)
    (hsplit : sv.headers = pre ++ header :: post)
    (hpre : ∀ x ∈ pre, ¬ missing req x) (hmiss : missing req header) :
    ServeHTTP sv req =
      ⟨sv, [Action.Error (bytes "Missing required header: " ++ header) 403]⟩ := by
  simp only [ServeHTTP, hsplit, extractHeaders_error req pre header post [] hpre hmiss,
    fmt.Sprintf, http.StatusForbidden]

/-- The outcome of `ServeHTTP` when no header is missing. -/
theorem ServeHTTP_present (sv : SignatureVerifier) (req : http.Request)
    (hall : ∀ x ∈ sv.headers, ¬ missing req x) :
    ServeHTTP sv req =
      if req.Header.Get (bytes "X-Signature") =
          expectedSignature sv.secretKey (sv.headers.map req.Header.Get) then
        ⟨sv, [Action.ServeHTTP sv.next req]⟩
      else
        ⟨sv, [Action.Error (bytes "Invalid signature") 403]⟩ := by
  simp only [ServeHTTP, extractHeaders_ok req sv.headers [] hall, List.nil_append,
    http.StatusForbidden]
  by_cases hs : req.Header.Get (bytes "X-Signature") =
      expectedSignature sv.secretKey (sv.headers.map req.Header.Get)
  · simp [hs]
  · simp [hs]

/-! ## Further lemmas on the plugin -/

theorem forwards_iff (sv : SignatureVerifier) (req : http.Request)
    (hall : ∀ x ∈ sv.headers, ¬ missing req x) :
    forwards sv req ↔ req.Header.Get (bytes "X-Signature") =
      expectedSignature sv.secretKey (sv.headers.map req.Header.Get) := by
  unfold forwards
  rw [ServeHTTP_present sv req hall]
  by_cases hs : req.Header.Get (bytes "X-Signature") =
      expectedSignature sv.secretKey (sv.headers.map req.Header.Get)
  · simp [hs]
  · simp [hs]

theorem rejects_invalid_iff (sv : SignatureVerifier) (req : http.Request)
    (hall : ∀ x ∈ sv.headers, ¬ missing req x) :
    rejects sv req (bytes "Invalid signature") ↔ req.Header.Get (bytes "X-Signature") ≠
      expectedSignature sv.secretKey (sv.headers.map req.Header.Get) := by
  unfold rejects
  rw [ServeHTTP_present sv req hall]
  by_cases hs : req.Header.Get (bytes "X-Signature") =
      expectedSignature sv.secretKey (sv.headers.map req.Header.Get)
  · simp [hs]
  · simp [hs]

/-- Two lists of parts have the same expected signature only if their concatenations are
equal. -/
theorem expectedSignature_inj (secretKey : GoString) (p q : List GoString)
    (h : expectedSignature secretKey p = expectedSignature secretKey q) :
    fmt.Sprint p = fmt.Sprint q := by
  rw [expectedSignature_eq, expectedSignature_eq] at h
  exact List.append_cancel_right (base64.EncodeToString_injective h)

/-- The expected signature of the code is never the encoding of the standard HMAC of a
non-empty message. -/
theorem expectedSignature_ne_standard (secretKey : GoString) (parts : List GoString)
    (hne : fmt.Sprint parts ≠ []) :
    expectedSignature secretKey parts ≠
      base64.EncodeToString (HMAC_SHA256 secretKey (fmt.Sprint parts)) := by
  intro h
  rw [expectedSignature_eq] at h
  have hlen := congrArg List.length (base64.EncodeToString_injective h)
  rw [List.length_append, HMAC_SHA256_length, HMAC_SHA256_length] at hlen
  have : (fmt.Sprint parts).length = 0 := by omega
  exact hne (List.length_eq_zero.mp this)

/-- The loop reads a request only through the values of the listed headers. -/
theorem extractHeaders_congr (r1 r2 : http.Request) (headers acc : List GoString)
    (h : ∀ x ∈ headers, r1.Header.Get x = r2.Header.Get x) :
    extractHeaders r1 headers acc = extractHeaders r2 headers acc := by
  induction headers generalizing acc with
  | nil => rfl
  | cons x xs ih =>
    have hx := h x (List.mem_cons_self _ _)
    have hxs : ∀ y ∈ xs, r1.Header.Get y = r2.Header.Get y :=
      fun y hy => h y (List.mem_cons_of_mem _ hy)
    simp only [extractHeaders, hx]
    split
    · rfl
    · exact ih _ hxs

theorem missing_message_ne_invalid (header : GoString) :
    bytes "Missing required header: " ++ header ≠ bytes "Invalid signature" := by
  have e1 : bytes "Missing required header: " = 77 :: bytes "issing required header: " := by
    decide
  have e2 : bytes "Invalid signature" = 73 :: bytes "nvalid signature" := by decide
  rw [e1, e2, List.cons_append]
  intro h
  have h0 := (List.cons.inj h).1
  revert h0
  decide

theorem length_assembledMessage (req : http.Request) (headers : List GoString) :
    (assembledMessage req headers).length =
      (headers.map fun x => (req.Header.Get x).length).sum := by
  induction headers with
  | nil => rfl
  | cons x xs ih => simp [assembledMessage, ih]

/-- With no header missing and at least one header listed, the assembled message is not
empty. -/
theorem assembledMessage_ne_nil (req : http.Request) (headers : List GoString)
    (hne : headers ≠ []) (hall : ∀ x ∈ headers, ¬ missing req x) :
    assembledMessage req headers ≠ [] := by
  cases headers with
  | nil => exact absurd rfl hne
  | cons x xs =>
    have hx : ¬ req.Header.Get x = bytes "" := hall x (List.mem_cons_self _ _)
    intro h
    simp only [assembledMessage, List.append_eq_nil] at h
    exact hx h.1

/-- Whatever the secret and the request, when at least one header is configured and none
is missing, a request that carries the encoding of the standard HMAC-SHA256 of the
assembled message as `X-Signature` is rejected with `Invalid signature`. -/
theorem standard_signature_rejected (sv : SignatureVerifier) (req : http.Request)
    (hne : sv.headers ≠ []) (hall : ∀ x ∈ sv.headers, ¬ missing req x)
    (hsig : req.Header.Get (bytes "X-Signature") = base64.EncodeToString
      (HMAC_SHA256 sv.secretKey (assembledMessage req sv.headers))) :
    rejects sv req (bytes "Invalid signature") := by
  rw [rejects_invalid_iff sv req hall, hsig, ← Sprint_eq_assembledMessage]
  refine (expectedSignature_ne_standard sv.secretKey _ ?_).symm
  rw [Sprint_eq_assembledMessage]
  exact assembledMessage_ne_nil req sv.headers hne hall

/-- The expected signature is never the empty string. -/
theorem expectedSignature_ne_nil (secretKey : GoString) (messageParts : List GoString) :
    expectedSignature secretKey messageParts ≠ [] := by
  intro h
  have hlen := congrArg List.length h
  rw [expectedSignature_eq, base64.length_EncodeToString, List.length_append,
    HMAC_SHA256_length, List.length_nil] at hlen
  omega

/-- The signature forged from an expected signature carries the tag of the secret. -/
theorem forge_expectedSignature (secretKey : GoString) (messageParts : List GoString)
    (message : GoString) :
    forge (expectedSignature secretKey messageParts) message =
      base64.EncodeToString (message ++ HMAC_SHA256 secretKey []) := by
  have hlen : (fmt.Sprint messageParts ++ HMAC_SHA256 secretKey []).length - 32 =
      (fmt.Sprint messageParts).length := by
    rw [List.length_append, HMAC_SHA256_length]
    omega
  unfold forge
  rw [expectedSignature_eq, base64.DecodeString_EncodeToString]
  simp only [hlen, List.drop_left]

/-- A call of `ServeHTTP` returns its receiver as it was. -/
theorem ServeHTTP_sv (sv : SignatureVerifier) (req : http.Request) :
    (ServeHTTP sv req).sv = sv := by
  unfold ServeHTTP
  split
  · rfl
  · simp only
    split <;> rfl

theorem serveAll_fst (sv : SignatureVerifier) (reqs : List http.Request) :
    (serveAll sv reqs).1 = sv := by
  induction reqs generalizing sv with
  | nil => rfl
  | cons req rest ih =>
    simp only [serveAll]
    rw [ih, ServeHTTP_sv]

/-- A request that is not forwarded is rejected for a missing header or for its
signature. -/
theorem rejects_of_not_forwards (sv : SignatureVerifier) (req : http.Request)
    (hnf : ¬ forwards sv req) :
    (∃ h ∈ sv.headers, rejects sv req (bytes "Missing required header: " ++ h)) ∨
      rejects sv req (bytes "Invalid signature") := by
  by_cases hm : ∃ x ∈ sv.headers, missing req x
  · obtain ⟨pre, header, post, hsplit, hpre, hmiss⟩ := exists_first_missing req sv.headers hm
    have hs := ServeHTTP_missing sv req pre header post hsplit hpre hmiss
    have hmem : header ∈ sv.headers := by rw [hsplit]; simp
    refine Or.inl ⟨header, hmem, ?_⟩
    unfold rejects
    rw [hs]
  · have hall : ∀ x ∈ sv.headers, ¬ missing req x := fun x hx hmx => hm ⟨x, hx, hmx⟩
    refine Or.inr ?_
    rw [rejects_invalid_iff sv req hall]
    exact fun h => hnf ((forwards_iff sv req hall).mpr h)

/-- The loop reads the header values only through their concatenation when none is
missing: equal assembled messages give equal expected signatures. -/
theorem expectedSignature_congr (secretKey : GoString) (r1 r2 : http.Request)
    (headers : List GoString)
    (heq : assembledMessage r1 headers = assembledMessage r2 headers) :
    expectedSignature secretKey (headers.map r1.Header.Get) =
      expectedSignature secretKey (headers.map r2.Header.Get) := by
  rw [expectedSignature_eq, expectedSignature_eq, Sprint_eq_assembledMessage,
    Sprint_eq_assembledMessage, heq]

/-! ## Claims -/

set_option maxRecDepth 100000 in
/-- C1 (the code departs from the claim). In the scenario of the specification, with a
verifier that `New` builds and a request in which every configured header has a
non-empty value, the expected signature of `ServeHTTP` is the Base64 encoding of the
message bytes followed by the HMAC-SHA256 tag of the empty message; it is not the Base64
encoding of HMAC-SHA256 of the assembled message under the secret. -/
theorem C1_expected_signature_not_standard :
    New () ⟨1⟩ ⟨[bytes "X-Date", bytes "Authorization", bytes "APP-ID"], bytes "s3cr3t"⟩
        (bytes "verifier") = .ok scenarioVerifier ∧
    (∀ x ∈ scenarioVerifier.headers, ¬ missing (scenarioRequest (bytes "42") []) x) ∧
    assembledMessage (scenarioRequest (bytes "42") []) scenarioVerifier.headers =
      bytes "2024-01-01Bearer t42" ∧
    expectedSignature scenarioVerifier.secretKey
        (scenarioVerifier.headers.map (scenarioRequest (bytes "42") []).Header.Get) =
      bytes "MjAyNC0wMS0wMUJlYXJlciB0NDI8gcyUluHCUlD2zLhfaXwbtiPjSA1lOK2MtqZkgUJ3fQ==" ∧
    base64.EncodeToString (HMAC_SHA256 (bytes "s3cr3t") (bytes "2024-01-01Bearer t42")) =
      bytes "wyFolE99YYpJNpS0FuYkK+YI1kNblJDHgQWNlXEkkyo=" := by
  refine ⟨rfl, ?_⟩
  decide

set_option maxRecDepth 100000 in
/-- C2 (the code departs from the claim). The request of the scenario whose `X-Signature`
is Base64 of HMAC-SHA256 of `2024-01-01Bearer t42` under `s3cr3t` is not forwarded: it is
rejected with status 403 and the message `Invalid signature`. -/
theorem C2_standard_signature_rejected :
    scenarioStandardSignature =
      base64.EncodeToString (HMAC_SHA256 (bytes "s3cr3t") (bytes "2024-01-01Bearer t42")) ∧
    ServeHTTP scenarioVerifier (scenarioRequest (bytes "42") scenarioStandardSignature) =
      ⟨scenarioVerifier, [Action.Error (bytes "Invalid signature") 403]⟩ ∧
    ¬ forwards scenarioVerifier (scenarioRequest (bytes "42") scenarioStandardSignature) := by
  decide

/-- C3. When at least one configured header is missing from the request (absent, or with
the empty string as its value), the header list splits at its first missing header, and
`ServeHTTP` leaves the verifier as it is and makes one call, `http.Error` with status 403
and the message `Missing required header: ` followed by that header as configured;
the next handler is not called, whatever the request carries as `X-Signature`. -/
theorem C3_missing_header_rejected (sv : SignatureVerifier) (req : http.Request)
    (h : ∃ x ∈ sv.headers, missing req x) :
    ∃ pre header post, sv.headers = pre ++ header :: post ∧
      (∀ x ∈ pre, ¬ missing req x) ∧ missing req header ∧
      ServeHTTP sv req =
        ⟨sv, [Action.Error (bytes "Missing required header: " ++ header) 403]⟩ ∧
      ¬ forwards sv req := by
  obtain ⟨pre, header, post, hsplit, hpre, hmiss⟩ := exists_first_missing req sv.headers h
  have hs := ServeHTTP_missing sv req pre header post hsplit hpre hmiss
  refine ⟨pre, header, post, hsplit, hpre, hmiss, hs, ?_⟩
  unfold forwards
  rw [hs]
  simp

set_option maxRecDepth 100000 in
/-- Witness of C3: the scenario without `APP-ID` and with the signature the code would
accept is rejected with `Missing required header: APP-ID`. -/
theorem C3_missing_header_rejected_witness :
    (∃ x ∈ scenarioVerifier.headers, missing (scenarioRequestNoAppId scenarioSignature) x) ∧
    (∃ pre header post, scenarioVerifier.headers = pre ++ header :: post ∧
      (∀ x ∈ pre, ¬ missing (scenarioRequestNoAppId scenarioSignature) x) ∧
      missing (scenarioRequestNoAppId scenarioSignature) header ∧
      ServeHTTP scenarioVerifier (scenarioRequestNoAppId scenarioSignature) =
        ⟨scenarioVerifier, [Action.Error (bytes "Missing required header: " ++ header) 403]⟩ ∧
      ¬ forwards scenarioVerifier (scenarioRequestNoAppId scenarioSignature)) ∧
    ServeHTTP scenarioVerifier (scenarioRequestNoAppId scenarioSignature) =
      ⟨scenarioVerifier, [Action.Error (bytes "Missing required header: APP-ID") 403]⟩ :=
  ⟨⟨bytes "APP-ID", by decide, by decide⟩,
   C3_missing_header_rejected scenarioVerifier (scenarioRequestNoAppId scenarioSignature)
     ⟨bytes "APP-ID", by decide, by decide⟩,
   by decide⟩

/-- C4. When no configured header is missing, `ServeHTTP` forwards exactly when the value
of `X-Signature` (the empty string when the request has no such header) equals, as a
string, the expected signature computed from the secret and the values of the configured
headers; in every other case it rejects with status 403 and `Invalid signature`. -/
theorem C4_forward_iff_signature_matches (sv : SignatureVerifier) (req : http.Request)
    (hall : ∀ x ∈ sv.headers, ¬ missing req x) :
    (forwards sv req ↔ req.Header.Get (bytes "X-Signature") =
        expectedSignature sv.secretKey (sv.headers.map req.Header.Get)) ∧
    (¬ forwards sv req → rejects sv req (bytes "Invalid signature")) ∧
    (req.Header.lookup (http.CanonicalMIMEHeaderKey (bytes "X-Signature")) = none →
        req.Header.Get (bytes "X-Signature") = bytes "") := by
  refine ⟨forwards_iff sv req hall, ?_, ?_⟩
  · intro hnf
    rw [rejects_invalid_iff sv req hall]
    intro hs
    exact hnf ((forwards_iff sv req hall).mpr hs)
  · intro hnone
    simp [http.Header.Get, hnone]

set_option maxRecDepth 100000 in
/-- Witness of C4: the scenario with the signature the code computes. -/
theorem C4_forward_iff_signature_matches_witness :
    (∀ x ∈ scenarioVerifier.headers,
        ¬ missing (scenarioRequest (bytes "42") scenarioSignature) x) ∧
    ((forwards scenarioVerifier (scenarioRequest (bytes "42") scenarioSignature) ↔
        (scenarioRequest (bytes "42") scenarioSignature).Header.Get (bytes "X-Signature") =
          expectedSignature scenarioVerifier.secretKey
            (scenarioVerifier.headers.map
              (scenarioRequest (bytes "42") scenarioSignature).Header.Get)) ∧
      (¬ forwards scenarioVerifier (scenarioRequest (bytes "42") scenarioSignature) →
        rejects scenarioVerifier (scenarioRequest (bytes "42") scenarioSignature)
          (bytes "Invalid signature")) ∧
      ((scenarioRequest (bytes "42") scenarioSignature).Header.lookup
          (http.CanonicalMIMEHeaderKey (bytes "X-Signature")) = none →
        (scenarioRequest (bytes "42") scenarioSignature).Header.Get (bytes "X-Signature") =
          bytes "")) ∧
    forwards scenarioVerifier (scenarioRequest (bytes "42") scenarioSignature) :=
  ⟨by decide,
   C4_forward_iff_signature_matches scenarioVerifier
     (scenarioRequest (bytes "42") scenarioSignature) (by decide),
   by decide⟩

/-- C5. Two requests carry the same `X-Signature`, no configured header is missing from
either, and their assembled messages differ: if the first is forwarded, the second is
rejected with status 403 and `Invalid signature`. -/
theorem C5_tamper_detection (sv : SignatureVerifier) (r r' : http.Request)
    (hsig : r.Header.Get (bytes "X-Signature") = r'.Header.Get (bytes "X-Signature"))
    (hall : ∀ x ∈ sv.headers, ¬ missing r x)
    (hall' : ∀ x ∈ sv.headers, ¬ missing r' x)
    (hdiff : assembledMessage r sv.headers ≠ assembledMessage r' sv.headers)
    (hfwd : forwards sv r) :
    rejects sv r' (bytes "Invalid signature") := by
  rw [rejects_invalid_iff sv r' hall']
  intro hs
  have h1 := (forwards_iff sv r hall).mp hfwd
  rw [hsig, hs] at h1
  have h2 := expectedSignature_inj sv.secretKey _ _ h1
  rw [Sprint_eq_assembledMessage, Sprint_eq_assembledMessage] at h2
  exact hdiff h2.symm

set_option maxRecDepth 100000 in
/-- Witness of C5: the scenario, and the same request with `APP-ID` changed to 43. -/
theorem C5_tamper_detection_witness :
    forwards scenarioVerifier (scenarioRequest (bytes "42") scenarioSignature) ∧
    assembledMessage (scenarioRequest (bytes "42") scenarioSignature)
        scenarioVerifier.headers ≠
      assembledMessage (scenarioRequest (bytes "43") scenarioSignature)
        scenarioVerifier.headers ∧
    rejects scenarioVerifier (scenarioRequest (bytes "43") scenarioSignature)
      (bytes "Invalid signature") :=
  ⟨by decide, by decide,
   C5_tamper_detection scenarioVerifier (scenarioRequest (bytes "42") scenarioSignature)
     (scenarioRequest (bytes "43") scenarioSignature) (by decide) (by decide) (by decide)
     (by decide) (by decide)⟩


/-- C6. `New` returns an error, and no verifier, exactly when the header list of the
configuration is empty or its secret key is the empty string; in every other case, with
no look at the header names, it returns the verifier that holds the given next handler,
the header list of the configuration in its order, and its secret key. -/
theorem C6_New_error_iff (ctx : Unit) (next : http.Handler) (config : Config)
    (name : GoString) :
    ((∃ e, New ctx next config name = .error e) ↔
        (config.Headers = [] ∨ config.SecretKey = bytes "")) ∧
    (∀ sv, New ctx next config name = .ok sv ↔
        (¬ (config.Headers = [] ∨ config.SecretKey = bytes "") ∧
          sv = ⟨next, config.Headers, config.SecretKey⟩)) := by
  have hlen : config.Headers.length = 0 ↔ config.Headers = [] := List.length_eq_zero
  by_cases hc : config.Headers = [] ∨ config.SecretKey = bytes ""
  · have hc' : config.Headers.length = 0 ∨ config.SecretKey = bytes "" :=
      hc.imp hlen.mpr id
    simp only [New, hc', if_true]
    constructor
    · exact ⟨fun _ => hc, fun _ => ⟨_, rfl⟩⟩
    · intro sv
      constructor
      · intro h; cases h
      · intro h; exact absurd hc h.1
  · have hc' : ¬ (config.Headers.length = 0 ∨ config.SecretKey = bytes "") :=
      fun h => hc (h.imp hlen.mp id)
    simp only [New, hc', if_false]
    constructor
    · constructor
      · rintro ⟨e, he⟩; cases he
      · intro h; exact absurd h hc
    · intro sv
      constructor
      · intro h
        injection h with h
        exact ⟨hc, h.symm⟩
      · rintro ⟨_, rfl⟩; rfl

/-- C7. When no configured header is missing, the loop collects the value of each entry
of the header list, in the order of the list; the message is their concatenation, with
as many bytes as the values have together, so nothing stands between, before or after
them and a header listed several times contributes at each of its positions; and
`ServeHTTP` decides by comparing `X-Signature` with the encoding of what the keyed hash
returns for that message. -/
theorem C7_message_is_concatenation (sv : SignatureVerifier) (req : http.Request)
    (hall : ∀ x ∈ sv.headers, ¬ missing req x) :
    extractHeaders req sv.headers [] = .ok (sv.headers.map req.Header.Get) ∧
    fmt.Sprint (sv.headers.map req.Header.Get) = assembledMessage req sv.headers ∧
    (assembledMessage req sv.headers).length =
      (sv.headers.map fun x => (req.Header.Get x).length).sum ∧
    ServeHTTP sv req =
      if req.Header.Get (bytes "X-Signature") = base64.EncodeToString
          ((hmac.New sha256.New sv.secretKey).Sum (assembledMessage req sv.headers)) then
        ⟨sv, [Action.ServeHTTP sv.next req]⟩
      else
        ⟨sv, [Action.Error (bytes "Invalid signature") 403]⟩ := by
  refine ⟨?_, Sprint_eq_assembledMessage req sv.headers,
    length_assembledMessage req sv.headers, ?_⟩
  · have h := extractHeaders_ok req sv.headers [] hall
    rwa [List.nil_append] at h
  · rw [ServeHTTP_present sv req hall]
    unfold expectedSignature
    rw [Sprint_eq_assembledMessage]

set_option maxRecDepth 100000 in
/-- Witness of C7: a verifier that lists the header `A` twice signs its value twice. -/
theorem C7_message_is_concatenation_witness :
    (∀ x ∈ aaVerifier.headers, ¬ missing (abRequest (bytes "v") (bytes "w") []) x) ∧
    (extractHeaders (abRequest (bytes "v") (bytes "w") []) aaVerifier.headers [] =
        .ok (aaVerifier.headers.map (abRequest (bytes "v") (bytes "w") []).Header.Get) ∧
      fmt.Sprint (aaVerifier.headers.map (abRequest (bytes "v") (bytes "w") []).Header.Get) =
        assembledMessage (abRequest (bytes "v") (bytes "w") []) aaVerifier.headers ∧
      (assembledMessage (abRequest (bytes "v") (bytes "w") []) aaVerifier.headers).length =
        (aaVerifier.headers.map fun x =>
          ((abRequest (bytes "v") (bytes "w") []).Header.Get x).length).sum ∧
      ServeHTTP aaVerifier (abRequest (bytes "v") (bytes "w") []) =
        if (abRequest (bytes "v") (bytes "w") []).Header.Get (bytes "X-Signature") =
            base64.EncodeToString ((hmac.New sha256.New aaVerifier.secretKey).Sum
              (assembledMessage (abRequest (bytes "v") (bytes "w") []) aaVerifier.headers)) then
          ⟨aaVerifier, [Action.ServeHTTP aaVerifier.next (abRequest (bytes "v") (bytes "w") [])]⟩
        else
          ⟨aaVerifier, [Action.Error (bytes "Invalid signature") 403]⟩) ∧
    assembledMessage (abRequest (bytes "v") (bytes "w") []) aaVerifier.headers = bytes "vv" :=
  ⟨by decide,
   C7_message_is_concatenation aaVerifier (abRequest (bytes "v") (bytes "w") []) (by decide),
   by decide⟩

/-- C8. For a verifier over the headers `A` and `B`, with any secret, the expected
signature for the values `x`, `y` differs from the expected signature for `y`, `x`, and
two such requests with one and the same `X-Signature` are not both forwarded. -/
theorem C8_order_matters (sv : SignatureVerifier) (r1 r2 : http.Request)
    (hh : sv.headers = [bytes "A", bytes "B"])
    (h1A : r1.Header.Get (bytes "A") = bytes "x") (h1B : r1.Header.Get (bytes "B") = bytes "y")
    (h2A : r2.Header.Get (bytes "A") = bytes "y")
    (h2B : r2.Header.Get (bytes "B") = bytes "x") :
    expectedSignature sv.secretKey (sv.headers.map r1.Header.Get) ≠
      expectedSignature sv.secretKey (sv.headers.map r2.Header.Get) ∧
    ¬ (r1.Header.Get (bytes "X-Signature") = r2.Header.Get (bytes "X-Signature") ∧
        forwards sv r1 ∧ forwards sv r2) := by
  have hne : expectedSignature sv.secretKey (sv.headers.map r1.Header.Get) ≠
      expectedSignature sv.secretKey (sv.headers.map r2.Header.Get) := by
    intro h
    have h2 := expectedSignature_inj sv.secretKey _ _ h
    rw [hh] at h2
    simp only [List.map, h1A, h1B, h2A, h2B] at h2
    revert h2
    decide
  have hall1 : ∀ x ∈ sv.headers, ¬ missing r1 x := by
    rw [hh]
    intro x hx
    simp only [List.mem_cons, List.mem_singleton, List.not_mem_nil, or_false] at hx
    rcases hx with rfl | rfl
    · unfold missing; rw [h1A]; decide
    · unfold missing; rw [h1B]; decide
  have hall2 : ∀ x ∈ sv.headers, ¬ missing r2 x := by
    rw [hh]
    intro x hx
    simp only [List.mem_cons, List.mem_singleton, List.not_mem_nil, or_false] at hx
    rcases hx with rfl | rfl
    · unfold missing; rw [h2A]; decide
    · unfold missing; rw [h2B]; decide
  refine ⟨hne, ?_⟩
  rintro ⟨hs, hf1, hf2⟩
  have e1 := (forwards_iff sv r1 hall1).mp hf1
  have e2 := (forwards_iff sv r2 hall2).mp hf2
  rw [hs, e2] at e1
  exact hne e1.symm

set_option maxRecDepth 100000 in
/-- Witness of C8: the secret `k` and the signature the code accepts for `x`, `y`. -/
theorem C8_order_matters_witness :
    forwards abVerifier (abRequest (bytes "x") (bytes "y")
      (bytes "eHmLuZDECn1hy5dZepQhJQJb5QrIvrdENuNzW5iJOn9mIA==")) ∧
    (expectedSignature abVerifier.secretKey (abVerifier.headers.map
        (abRequest (bytes "x") (bytes "y")
          (bytes "eHmLuZDECn1hy5dZepQhJQJb5QrIvrdENuNzW5iJOn9mIA==")).Header.Get) ≠
      expectedSignature abVerifier.secretKey (abVerifier.headers.map
        (abRequest (bytes "y") (bytes "x")
          (bytes "eHmLuZDECn1hy5dZepQhJQJb5QrIvrdENuNzW5iJOn9mIA==")).Header.Get) ∧
    ¬ ((abRequest (bytes "x") (bytes "y")
          (bytes "eHmLuZDECn1hy5dZepQhJQJb5QrIvrdENuNzW5iJOn9mIA==")).Header.Get
            (bytes "X-Signature") =
        (abRequest (bytes "y") (bytes "x")
          (bytes "eHmLuZDECn1hy5dZepQhJQJb5QrIvrdENuNzW5iJOn9mIA==")).Header.Get
            (bytes "X-Signature") ∧
        forwards abVerifier (abRequest (bytes "x") (bytes "y")
          (bytes "eHmLuZDECn1hy5dZepQhJQJb5QrIvrdENuNzW5iJOn9mIA==")) ∧
        forwards abVerifier (abRequest (bytes "y") (bytes "x")
          (bytes "eHmLuZDECn1hy5dZepQhJQJb5QrIvrdENuNzW5iJOn9mIA==")))) :=
  ⟨by decide,
   C8_order_matters abVerifier
     (abRequest (bytes "x") (bytes "y")
       (bytes "eHmLuZDECn1hy5dZepQhJQJb5QrIvrdENuNzW5iJOn9mIA=="))
     (abRequest (bytes "y") (bytes "x")
       (bytes "eHmLuZDECn1hy5dZepQhJQJb5QrIvrdENuNzW5iJOn9mIA=="))
     (by decide) (by decide) (by decide) (by decide) (by decide)⟩

/-- C9. Every call of `ServeHTTP` has exactly one of three outcomes: the request is
forwarded (one call of the next handler with the same request, and no call of
`http.Error`); or it is rejected with status 403 and `Missing required header: ` followed
by one of the configured headers; or it is rejected with status 403 and
`Invalid signature`. No two of the three hold together. -/
theorem C9_three_outcomes (sv : SignatureVerifier) (req : http.Request) :
    (forwards sv req ∨
      (∃ h ∈ sv.headers, rejects sv req (bytes "Missing required header: " ++ h)) ∨
      rejects sv req (bytes "Invalid signature")) ∧
    ¬ (forwards sv req ∧
        ∃ h ∈ sv.headers, rejects sv req (bytes "Missing required header: " ++ h)) ∧
    ¬ (forwards sv req ∧ rejects sv req (bytes "Invalid signature")) ∧
    ¬ ((∃ h ∈ sv.headers, rejects sv req (bytes "Missing required header: " ++ h)) ∧
        rejects sv req (bytes "Invalid signature")) := by
  by_cases hm : ∃ x ∈ sv.headers, missing req x
  · obtain ⟨pre, header, post, hsplit, hpre, hmiss⟩ := exists_first_missing req sv.headers hm
    have hs := ServeHTTP_missing sv req pre header post hsplit hpre hmiss
    have hmem : header ∈ sv.headers := by rw [hsplit]; simp
    have hcalls : (ServeHTTP sv req).calls =
        [Action.Error (bytes "Missing required header: " ++ header) 403] := by rw [hs]
    have hnf : ¬ forwards sv req := by unfold forwards; rw [hcalls]; simp
    have hni : ¬ rejects sv req (bytes "Invalid signature") := by
      unfold rejects
      rw [hcalls]
      intro h
      have h1 := List.cons.inj h
      injection h1.1 with h2 _
      exact missing_message_ne_invalid header h2
    exact ⟨Or.inr (Or.inl ⟨header, hmem, hcalls⟩), fun h => hnf h.1, fun h => hnf h.1,
      fun h => hni h.2⟩
  · have hall : ∀ x ∈ sv.headers, ¬ missing req x := fun x hx hmx => hm ⟨x, hx, hmx⟩
    have hnm : ¬ ∃ h ∈ sv.headers,
        rejects sv req (bytes "Missing required header: " ++ h) := by
      rintro ⟨h, _, hr⟩
      unfold rejects at hr
      rw [ServeHTTP_present sv req hall] at hr
      split at hr
      · simp at hr
      · have h1 := List.cons.inj hr
        injection h1.1 with h2 _
        exact missing_message_ne_invalid h h2.symm
    by_cases hf : forwards sv req
    · have hni : ¬ rejects sv req (bytes "Invalid signature") := by
        rw [rejects_invalid_iff sv req hall]
        exact fun h => h ((forwards_iff sv req hall).mp hf)
      exact ⟨Or.inl hf, fun h => hnm h.2, fun h => hni h.2, fun h => hnm h.1⟩
    · have hi : rejects sv req (bytes "Invalid signature") := by
        rw [rejects_invalid_iff sv req hall]
        exact fun h => hf ((forwards_iff sv req hall).mpr h)
      exact ⟨Or.inr (Or.inr hi), fun h => hf h.1, fun h => hf h.1, fun h => hnm h.1⟩

/-- C10. Two requests that agree on the value of each configured header and on the value
of `X-Signature` receive the same decision from the same verifier: both are forwarded, or
both are rejected with the same status and message. -/
theorem C10_decision_depends_on_signed_headers (sv : SignatureVerifier)
    (r1 r2 : http.Request)
    (hh : ∀ x ∈ sv.headers, r1.Header.Get x = r2.Header.Get x)
    (hs : r1.Header.Get (bytes "X-Signature") = r2.Header.Get (bytes "X-Signature")) :
    Evaluate sv r1 = Evaluate sv r2 := by
  unfold Evaluate ServeHTTP
  rw [extractHeaders_congr r1 r2 sv.headers [] hh, hs]
  cases extractHeaders r2 sv.headers [] with
  | error header => rfl
  | ok messageParts =>
    simp only
    split <;> rfl

set_option maxRecDepth 100000 in
/-- Witness of C10: the scenario, and a request with another method, URL, body and
further headers; both are forwarded. -/
theorem C10_decision_depends_on_signed_headers_witness :
    scenarioRequest (bytes "42") scenarioSignature ≠
      scenarioRequestOther (bytes "42") scenarioSignature ∧
    Evaluate scenarioVerifier (scenarioRequest (bytes "42") scenarioSignature) =
      Evaluate scenarioVerifier (scenarioRequestOther (bytes "42") scenarioSignature) ∧
    Evaluate scenarioVerifier (scenarioRequest (bytes "42") scenarioSignature) =
      [Decision.Forward] :=
  ⟨by decide,
   C10_decision_depends_on_signed_headers scenarioVerifier
     (scenarioRequest (bytes "42") scenarioSignature)
     (scenarioRequestOther (bytes "42") scenarioSignature) (by decide) (by decide),
   by decide⟩

/-- C11. `CreateConfig` returns the header list `X-Date`, `Authorization`, `APP-ID`, in
that order, and the empty string as secret key; `New` on that configuration returns an
error, and on that configuration with a non-empty secret key it returns the verifier
with the three headers and that key. -/
theorem C11_default_config (next : http.Handler) (name key : GoString)
    (hk : key ≠ bytes "") :
    CreateConfig.Headers = [bytes "X-Date", bytes "Authorization", bytes "APP-ID"] ∧
    CreateConfig.SecretKey = bytes "" ∧
    New () next CreateConfig name = .error (bytes "headers and secretKey must be provided") ∧
    New () next { CreateConfig with SecretKey := key } name =
      .ok ⟨next, [bytes "X-Date", bytes "Authorization", bytes "APP-ID"], key⟩ := by
  refine ⟨rfl, rfl, rfl, ?_⟩
  have hc : ¬ (CreateConfig.Headers.length = 0 ∨ key = bytes "") := by
    rintro (h | h)
    · exact absurd h (by decide)
    · exact hk h
  simp only [New, hc, if_false]
  rfl

/-- Witness of C11: the default configuration with the secret `s3cr3t`. -/
theorem C11_default_config_witness :
    bytes "s3cr3t" ≠ bytes "" ∧
    (CreateConfig.Headers = [bytes "X-Date", bytes "Authorization", bytes "APP-ID"] ∧
      CreateConfig.SecretKey = bytes "" ∧
      New () ⟨1⟩ CreateConfig (bytes "verifier") =
        .error (bytes "headers and secretKey must be provided") ∧
      New () ⟨1⟩ { CreateConfig with SecretKey := bytes "s3cr3t" } (bytes "verifier") =
        .ok ⟨⟨1⟩, [bytes "X-Date", bytes "Authorization", bytes "APP-ID"], bytes "s3cr3t"⟩) :=
  ⟨by decide, C11_default_config ⟨1⟩ (bytes "verifier") (bytes "s3cr3t") (by decide)⟩

/-- C12. A call of `ServeHTTP` returns the verifier with the next handler, header list
and secret key it had, whatever the request and its outcome; so after any sequence of
requests the verifier is the one the sequence started with, and for a verifier that `New`
returned it holds what `New` stored. -/
theorem C12_verifier_unchanged (sv : SignatureVerifier) (req : http.Request)
    (reqs : List http.Request) :
    (ServeHTTP sv req).sv = sv ∧
    (ServeHTTP sv req).sv.next = sv.next ∧
    (ServeHTTP sv req).sv.headers = sv.headers ∧
    (ServeHTTP sv req).sv.secretKey = sv.secretKey ∧
    (serveAll sv reqs).1 = sv ∧
    (∀ ctx next config name, New ctx next config name = .ok sv →
      (serveAll sv reqs).1 = ⟨next, config.Headers, config.SecretKey⟩) := by
  have h := ServeHTTP_sv sv req
  refine ⟨h, by rw [h], by rw [h], by rw [h], serveAll_fst sv reqs, ?_⟩
  intro ctx next config name hnew
  rw [serveAll_fst]
  unfold New at hnew
  split at hnew
  · cases hnew
  · injection hnew with hnew
    exact hnew.symm

set_option maxRecDepth 100000 in
/-- Witness of C12: a forwarded request, a request with a missing header and a request
with an invalid signature, one after the other. -/
theorem C12_verifier_unchanged_witness :
    (serveAll scenarioVerifier
        [scenarioRequest (bytes "42") scenarioSignature,
         scenarioRequestNoAppId scenarioSignature,
         scenarioRequest (bytes "43") scenarioSignature]).2 =
      [[Action.ServeHTTP ⟨1⟩ (scenarioRequest (bytes "42") scenarioSignature)],
       [Action.Error (bytes "Missing required header: APP-ID") 403],
       [Action.Error (bytes "Invalid signature") 403]] ∧
    (serveAll scenarioVerifier
        [scenarioRequest (bytes "42") scenarioSignature,
         scenarioRequestNoAppId scenarioSignature,
         scenarioRequest (bytes "43") scenarioSignature]).1 = scenarioVerifier :=
  ⟨by decide,
   (C12_verifier_unchanged scenarioVerifier (scenarioRequest (bytes "42") scenarioSignature)
     [scenarioRequest (bytes "42") scenarioSignature,
      scenarioRequestNoAppId scenarioSignature,
      scenarioRequest (bytes "43") scenarioSignature]).2.2.2.2.1⟩

/-- C14. The keyed hash of `ServeHTTP` is made from the secret and nothing is written to
it; `Sum` returns the message followed by the tag of the empty message, which has 32
bytes; so the expected signature is the standard Base64 encoding of the message bytes
followed by HMAC-SHA256 of the empty message under the secret, and it has four
characters for every three of its `len(m) + 32` bytes, rounded up. -/
theorem C14_expected_signature_shape (k : GoString) (messageParts : List GoString) :
    (hmac.New sha256.New k).written = [] ∧
    (hmac.New sha256.New k).Sum (fmt.Sprint messageParts) =
      fmt.Sprint messageParts ++ HMAC_SHA256 k [] ∧
    (HMAC_SHA256 k []).length = 32 ∧
    expectedSignature k messageParts =
      base64.EncodeToString (fmt.Sprint messageParts ++ HMAC_SHA256 k []) ∧
    (expectedSignature k messageParts).length =
      4 * (((fmt.Sprint messageParts).length + 32 + 2) / 3) := by
  refine ⟨rfl, hmac_Sum_unwritten k _, HMAC_SHA256_length k [],
    expectedSignature_eq k messageParts, ?_⟩
  rw [expectedSignature_eq, base64.length_EncodeToString, List.length_append,
    HMAC_SHA256_length]

/-- C15. For every secret and every two lists of message parts, the expected signature
of the second is the encoding of its message followed by the last 32 bytes of the
decoding of the expected signature of the first: it is computed from the first without
the secret. So when one request is forwarded, another request with all configured
headers present is forwarded exactly when its `X-Signature` is the value computed, without
the secret, from the signature of the first and its own header values. -/
theorem C15_forgeable_without_secret (k : GoString) (p1 p2 : List GoString) :
    (∃ decoded, base64.DecodeString (expectedSignature k p1) = some decoded ∧
      expectedSignature k p2 =
        base64.EncodeToString (fmt.Sprint p2 ++ decoded.drop (decoded.length - 32))) ∧
    expectedSignature k p2 = forge (expectedSignature k p1) (fmt.Sprint p2) ∧
    (∀ (sv : SignatureVerifier) (r1 r2 : http.Request),
      (∀ x ∈ sv.headers, ¬ missing r1 x) → (∀ x ∈ sv.headers, ¬ missing r2 x) →
      forwards sv r1 →
      (forwards sv r2 ↔ r2.Header.Get (bytes "X-Signature") =
        forge (r1.Header.Get (bytes "X-Signature")) (assembledMessage r2 sv.headers))) := by
  have hlen : (fmt.Sprint p1 ++ HMAC_SHA256 k []).length - 32 = (fmt.Sprint p1).length := by
    rw [List.length_append, HMAC_SHA256_length]
    omega
  refine ⟨⟨fmt.Sprint p1 ++ HMAC_SHA256 k [], ?_, ?_⟩, ?_, ?_⟩
  · rw [expectedSignature_eq, base64.DecodeString_EncodeToString]
  · rw [hlen, List.drop_left, expectedSignature_eq]
  · rw [forge_expectedSignature, expectedSignature_eq]
  · intro sv r1 r2 hall1 hall2 hfwd
    have h1 := (forwards_iff sv r1 hall1).mp hfwd
    rw [forwards_iff sv r2 hall2, h1, forge_expectedSignature, expectedSignature_eq,
      Sprint_eq_assembledMessage]

set_option maxRecDepth 100000 in
/-- Witness of C15: from the accepted signature of the scenario, the signature for
`APP-ID: 43` is computed without the secret, and the request that carries it is
forwarded. -/
theorem C15_forgeable_without_secret_witness :
    forwards scenarioVerifier (scenarioRequest (bytes "42") scenarioSignature) ∧
    forge scenarioSignature (bytes "2024-01-01Bearer t43") = scenarioForgedSignature ∧
    forwards scenarioVerifier (scenarioRequest (bytes "43") scenarioForgedSignature) :=
  ⟨by decide, by decide,
   ((C15_forgeable_without_secret (bytes "s3cr3t") [] []).2.2 scenarioVerifier
      (scenarioRequest (bytes "42") scenarioSignature)
      (scenarioRequest (bytes "43") scenarioForgedSignature)
      (by decide) (by decide) (by decide)).mpr (by decide)⟩

set_option maxRecDepth 100000 in
/-- C16. A verifier over the headers `A` and `B` forwards two requests with one and the
same `X-Signature` whose header values differ, `ab`, `c` and `a`, `bc`; and whenever no
configured header is missing from two requests whose values concatenate to the same
message and whose `X-Signature` is the same, the two receive the same decision. -/
theorem C16_canonicalisation_ambiguity :
    (∃ (sv : SignatureVerifier) (r1 r2 : http.Request),
      sv.headers = [bytes "A", bytes "B"] ∧
      r1.Header.Get (bytes "A") = bytes "ab" ∧ r1.Header.Get (bytes "B") = bytes "c" ∧
      r2.Header.Get (bytes "A") = bytes "a" ∧ r2.Header.Get (bytes "B") = bytes "bc" ∧
      r1.Header.Get (bytes "X-Signature") = r2.Header.Get (bytes "X-Signature") ∧
      forwards sv r1 ∧ forwards sv r2) ∧
    (∀ (sv : SignatureVerifier) (r1 r2 : http.Request),
      (∀ x ∈ sv.headers, ¬ missing r1 x) → (∀ x ∈ sv.headers, ¬ missing r2 x) →
      assembledMessage r1 sv.headers = assembledMessage r2 sv.headers →
      r1.Header.Get (bytes "X-Signature") = r2.Header.Get (bytes "X-Signature") →
      Evaluate sv r1 = Evaluate sv r2) := by
  constructor
  · exact ⟨abVerifier, abRequest (bytes "ab") (bytes "c") abcSignature,
      abRequest (bytes "a") (bytes "bc") abcSignature, by decide⟩
  · intro sv r1 r2 hall1 hall2 heq hsig
    unfold Evaluate
    rw [ServeHTTP_present sv r1 hall1, ServeHTTP_present sv r2 hall2, hsig,
      expectedSignature_congr sv.secretKey r1 r2 sv.headers heq]
    split <;> rfl

set_option maxRecDepth 100000 in
/-- Witness of C16: the two requests with values `ab`, `c` and `a`, `bc`. -/
theorem C16_canonicalisation_ambiguity_witness :
    abRequest (bytes "ab") (bytes "c") abcSignature ≠
      abRequest (bytes "a") (bytes "bc") abcSignature ∧
    Evaluate abVerifier (abRequest (bytes "ab") (bytes "c") abcSignature) =
      Evaluate abVerifier (abRequest (bytes "a") (bytes "bc") abcSignature) ∧
    Evaluate abVerifier (abRequest (bytes "ab") (bytes "c") abcSignature) =
      [Decision.Forward] :=
  ⟨by decide,
   C16_canonicalisation_ambiguity.2 abVerifier
     (abRequest (bytes "ab") (bytes "c") abcSignature)
     (abRequest (bytes "a") (bytes "bc") abcSignature)
     (by decide) (by decide) (by decide) (by decide),
   by decide⟩

/-- C17. A request whose `X-Signature` is absent or the empty string is never forwarded:
it is rejected with status 403, for a missing header or for an invalid signature; the
expected signature is never the empty string. -/
theorem C17_empty_signature_rejected (sv : SignatureVerifier) (req : http.Request)
    (hsig : req.Header.Get (bytes "X-Signature") = bytes "") :
    ¬ forwards sv req ∧
    ((∃ h ∈ sv.headers, rejects sv req (bytes "Missing required header: " ++ h)) ∨
      rejects sv req (bytes "Invalid signature")) ∧
    (∀ messageParts, expectedSignature sv.secretKey messageParts ≠ bytes "") ∧
    (req.Header.lookup (http.CanonicalMIMEHeaderKey (bytes "X-Signature")) = none →
      req.Header.Get (bytes "X-Signature") = bytes "") := by
  have hnf : ¬ forwards sv req := by
    intro hf
    by_cases hm : ∃ x ∈ sv.headers, missing req x
    · obtain ⟨pre, header, post, hsplit, hpre, hmiss⟩ :=
        exists_first_missing req sv.headers hm
      have hs := ServeHTTP_missing sv req pre header post hsplit hpre hmiss
      unfold forwards at hf
      rw [hs] at hf
      simp at hf
    · have hall : ∀ x ∈ sv.headers, ¬ missing req x := fun x hx hmx => hm ⟨x, hx, hmx⟩
      have h1 := (forwards_iff sv req hall).mp hf
      rw [hsig] at h1
      exact expectedSignature_ne_nil _ _ h1.symm
  refine ⟨hnf, rejects_of_not_forwards sv req hnf,
    fun parts => expectedSignature_ne_nil _ parts, ?_⟩
  intro hnone
  simp [http.Header.Get, hnone]

set_option maxRecDepth 100000 in
/-- Witness of C17: the scenario without an `X-Signature` header is rejected with
`Invalid signature`, and so is the scenario with an empty `X-Signature`. -/
theorem C17_empty_signature_rejected_witness :
    scenarioRequestNoSignature.Header.Get (bytes "X-Signature") = bytes "" ∧
    (¬ forwards scenarioVerifier scenarioRequestNoSignature ∧
      ((∃ h ∈ scenarioVerifier.headers,
          rejects scenarioVerifier scenarioRequestNoSignature
            (bytes "Missing required header: " ++ h)) ∨
        rejects scenarioVerifier scenarioRequestNoSignature (bytes "Invalid signature")) ∧
      (∀ messageParts,
        expectedSignature scenarioVerifier.secretKey messageParts ≠ bytes "") ∧
      (scenarioRequestNoSignature.Header.lookup
          (http.CanonicalMIMEHeaderKey (bytes "X-Signature")) = none →
        scenarioRequestNoSignature.Header.Get (bytes "X-Signature") = bytes "")) ∧
    rejects scenarioVerifier scenarioRequestNoSignature (bytes "Invalid signature") ∧
    rejects scenarioVerifier (scenarioRequest (bytes "42") (bytes ""))
      (bytes "Invalid signature") :=
  ⟨by decide,
   C17_empty_signature_rejected scenarioVerifier scenarioRequestNoSignature (by decide),
   by decide, by decide⟩

end Plugindemo
